import Mathlib

/-!
Verification development for the tsl-sdr FLEX pager decoder and its helper
string parsers. Shallow embeddings of the C sources are given first, then
the theorems settling the specification's claims. Machine integers are
modelled as `Nat` with explicit reduction modulo `2 ^ 64` (respectively
masks) exactly where the C code overflows or truncates.
-/

/-! ## Result codes and parser embeddings (src/unnamed/part_000) -/

/-- Result codes used by the parsers. `A_OK` and `A_E_INVAL` appear literally
in the source. `A_E_BADARGS` models the invalid-argument error produced by
`TSL_ASSERT_ARG` (tsl/assert.h is not among the provided sources; the spec's
error taxonomy describes these as invalid-argument errors reported
immediately with no state mutated). -/
inductive Aresult
  | A_OK
  | A_E_INVAL
  | A_E_BADARGS
deriving DecidableEq

/-- View of a C string argument after libc `strtoull(str, &endptr, 0)` has
run on it: `n` is the parsed numeric prefix (strtoull's return value, a
`uint64_t`) and `rest` holds the characters from `endptr` onwards; the
terminating NUL is represented by the end of the list. `strtoull` is libc,
not repository code, so it is abstracted by its outputs. -/
structure CStr where
  n : Nat
  rest : List Char
deriving DecidableEq

/-- Dereferencing a position of a C string: at the terminator this reads
the NUL character. -/
def headChar (l : List Char) : Char := l.headD (Char.ofNat 0)

/-- One `memval <<= 10;` step on a `uint64_t`. -/
def memShift (m : Nat) : Nat := (m <<< 10) % 2 ^ 64

/-- Shallow embedding of `tsl_parse_mem_bytes` (src/unnamed/part_000 lines
9-47). `strNull`/`valNull` model NULL `str`/`val` arguments, `prev` is the
value stored at `*val` before the call; the result pairs the returned
`aresult_t` with the value at `*val` after the call. The cascading switch
fall-through is translated by nesting one `memShift` per case fallen
through. -/
def tsl_parse_mem_bytes (strNull valNull : Bool) (s : CStr) (prev : Nat) :
    Aresult × Nat :=
  if strNull || valNull then (Aresult.A_E_BADARGS, prev)
  else
    let c := headChar s.rest
    let memval := s.n % 2 ^ 64
    let memval :=
      if c = 'E' ∨ c = 'e' then
        memShift (memShift (memShift (memShift (memShift (memShift memval)))))
      else if c = 'P' ∨ c = 'p' then
        memShift (memShift (memShift (memShift (memShift memval))))
      else if c = 'T' ∨ c = 't' then
        memShift (memShift (memShift (memShift memval)))
      else if c = 'G' ∨ c = 'g' then
        memShift (memShift (memShift memval))
      else if c = 'M' ∨ c = 'm' then
        memShift (memShift memval)
      else if c = 'K' ∨ c = 'k' then
        memShift memval
      else memval
    (Aresult.A_OK, memval)

/-- Net shift applied by the fall-through switch of `tsl_parse_mem_bytes`
for each suffix character. -/
def memSuffixShift (c : Char) : Nat :=
  if c = 'E' ∨ c = 'e' then 60
  else if c = 'P' ∨ c = 'p' then 50
  else if c = 'T' ∨ c = 't' then 40
  else if c = 'G' ∨ c = 'g' then 30
  else if c = 'M' ∨ c = 'm' then 20
  else if c = 'K' ∨ c = 'k' then 10
  else 0

/-- Shallow embedding of `tsl_parse_time_interval` (src/unnamed/part_000
lines 49-92), same conventions as `tsl_parse_mem_bytes`. The `switch
(*endptr++)` consumes one character (`List.tail`), and the final check is
the source's `if ('\x5c0' != *endptr || 's' != *endptr)` on the character
after the consumed suffix. -/
def tsl_parse_time_interval (strNull valNull : Bool) (s : CStr) (prev : Nat) :
    Aresult × Nat :=
  if strNull || valNull then (Aresult.A_E_BADARGS, prev)
  else
    let n := s.n % 2 ^ 64
    if n = 0 ∨ s.rest = [] then (Aresult.A_OK, prev)
    else
      let c := headChar s.rest
      let rest1 := s.rest.tail
      let scaled : Option Nat :=
        if c = 'n' then some n
        else if c = 'u' then some (n * 1000 % 2 ^ 64)
        else if c = 'm' then some (n * 1000000 % 2 ^ 64)
        else if c = 's' then some (n * 1000000000 % 2 ^ 64)
        else none
      match scaled with
      | none => (Aresult.A_E_INVAL, prev)
      | some n2 =>
        if headChar rest1 ≠ Char.ofNat 0 ∨ headChar rest1 ≠ 's' then
          (Aresult.A_E_INVAL, prev)
        else (Aresult.A_OK, n2)

/-! ## GF(2) polynomial arithmetic on bit-vectors-as-Nat

The FLEX decoder owns a `struct bch_code` for the BCH code protecting each
31-bit block word (src/pager/pager_flex.h line 224). The bch_code
implementation is not among the provided sources, so the error corrector is
modelled from the spec; binary polynomials are `Nat` bit-vectors,
carry-less multiplication is `cmul` and `polyDivMod` is long division. -/

/-- Carry-less (GF(2) polynomial) multiplication of two bit-vectors. -/
def cmul (a b : Nat) : Nat :=
  if h : a = 0 then 0
  else (a % 2 * b) ^^^ (cmul (a / 2) b <<< 1)
decreasing_by exact Nat.div_lt_self (Nat.pos_of_ne_zero h) one_lt_two

/-- Helper for `wt`: structural recursion on a fuel argument, so that the
kernel can evaluate bit counts on concrete inputs. -/
def wtAux : Nat → Nat → Nat
  | 0, _ => 0
  | fuel + 1, n => if n = 0 then 0 else n % 2 + wtAux fuel (n / 2)

/-- Number of set bits (Hamming weight) of a bit-vector. Fuel `n` always
suffices because the argument at least halves at every step. -/
def wt (n : Nat) : Nat := wtAux n n

/-- One step of GF(2) long division by `g` (degree-10 divisor): if bit `i`
of the running remainder is set, cancel it with `g <<< (i - 10)` and record
bit `i - 10` of the quotient. -/
def redStep (g i : Nat) (qr : Nat × Nat) : Nat × Nat :=
  if qr.2.testBit i then
    (qr.1 ^^^ (1 <<< (i - 10)), qr.2 ^^^ (g <<< (i - 10)))
  else qr

/-- Run `redStep` on bits `j + 9, j + 8, ..., 10` of the remainder. -/
def redAux (g : Nat) : Nat → Nat × Nat → Nat × Nat
  | 0, qr => qr
  | j + 1, qr => redAux g j (redStep g (j + 10) qr)

/-- GF(2) polynomial quotient and remainder of a 31-bit word by a degree-10
generator `g` (with `2 ^ 10 ≤ g < 2 ^ 11`). -/
def polyDivMod (g n : Nat) : Nat × Nat := redAux g 21 (0, n)

/-- Generator polynomial of the classical two-error-correcting BCH(31,21)
code (octal 3551): the product of the minimal polynomials of alpha and
alpha cubed over GF(32). -/
def g3121 : Nat := 1897

/-- All 31-bit error patterns of Hamming weight at most two: the zero
pattern, the 31 single-bit patterns, and the 465 two-bit patterns. -/
def errList : List Nat :=
  0 :: (((List.range 31).map fun i => 1 <<< i) ++
    ((List.range 31).flatMap fun i => (List.range i).map fun j =>
      (1 <<< i) ^^^ (1 <<< j)))

/-- Syndrome of a received 31-bit word: its remainder modulo the
generator. -/
def flexSyndrome (r : Nat) : Nat := (polyDivMod g3121 r).2

/-- The 497 syndromes of the correctable error patterns, in `errList`
order, as a literal table (kept literal so that kernel-side evaluation of
the distinctness check walks a constructor list instead of re-evaluating
the syndrome map at every step). -/
def flexSyndromeTable : List Nat :=
  [
  0, 1, 2, 4, 8, 16, 32, 64, 128, 256, 512, 873, 443, 886, 389, 778, 381,
  762, 669, 595, 975, 247, 494, 988, 209, 418, 836, 481, 962, 237, 474,
  948, 3, 5, 6, 9, 10, 12, 17, 18, 20, 24, 33, 34, 36, 40, 48, 65, 66, 68,
  72, 80, 96, 129, 130, 132, 136, 144, 160, 192, 257, 258, 260, 264, 272,
  288, 320, 384, 513, 514, 516, 520, 528, 544, 576, 640, 768, 872, 875,
  877, 865, 889, 841, 809, 1001, 617, 361, 442, 441, 447, 435, 427, 411,
  507, 315, 187, 955, 722, 887, 884, 882, 894, 870, 854, 822, 1014, 630,
  374, 31, 717, 388, 391, 385, 397, 405, 421, 453, 261, 133, 901, 748, 62,
  755, 779, 776, 782, 770, 794, 810, 842, 906, 522, 266, 99, 689, 124,
  655, 380, 383, 377, 373, 365, 349, 317, 509, 125, 893, 532, 198, 523,
  248, 631, 763, 760, 766, 754, 746, 730, 698, 634, 1018, 250, 403, 833,
  396, 895, 496, 903, 668, 671, 665, 661, 653, 701, 733, 541, 925, 157,
  500, 806, 491, 792, 407, 992, 103, 594, 593, 599, 603, 579, 627, 531,
  723, 851, 83, 314, 1000, 293, 982, 345, 814, 169, 206, 974, 973, 971,
  967, 991, 1007, 911, 847, 719, 463, 166, 628, 185, 586, 197, 690, 309,
  338, 412, 246, 245, 243, 255, 231, 215, 183, 119, 503, 759, 926, 332,
  897, 370, 1021, 394, 525, 618, 676, 824, 495, 492, 490, 486, 510, 462,
  430, 366, 238, 1006, 647, 85, 664, 107, 740, 147, 788, 883, 957, 545,
  281, 989, 990, 984, 980, 972, 1020, 924, 860, 732, 476, 181, 615, 170,
  601, 214, 673, 294, 321, 399, 19, 811, 562, 208, 211, 213, 217, 193,
  241, 145, 81, 465, 721, 952, 362, 935, 340, 987, 428, 555, 588, 642,
  798, 38, 319, 781, 419, 416, 422, 426, 434, 386, 482, 290, 162, 930,
  715, 25, 724, 39, 680, 223, 856, 831, 1009, 621, 341, 76, 638, 371, 837,
  838, 832, 844, 852, 868, 772, 964, 580, 324, 45, 767, 50, 705, 78, 569,
  446, 473, 279, 139, 947, 682, 152, 917, 742, 480, 483, 485, 489, 497,
  449, 417, 353, 225, 993, 648, 90, 663, 100, 747, 156, 795, 892, 946,
  558, 278, 15, 573, 304, 67, 677, 963, 960, 966, 970, 978, 994, 898, 834,
  706, 450, 171, 633, 180, 583, 200, 703, 312, 351, 401, 13, 821, 556, 30,
  787, 608, 134, 547, 236, 239, 233, 229, 253, 205, 173, 109, 493, 749,
  900, 342, 923, 360, 999, 400, 535, 624, 702, 802, 26, 259, 817, 60, 335,
  937, 268, 815, 475, 472, 478, 466, 458, 506, 410, 346, 218, 986, 691,
  97, 684, 95, 720, 167, 800, 839, 905, 533, 301, 52, 518, 267, 120, 670,
  59, 536, 311, 949, 950, 944, 956, 932, 916, 1012, 820, 692, 436, 221,
  527, 194, 561, 190, 713, 334, 297, 487, 123, 835, 602, 104, 869, 534,
  240, 597, 118, 857, 622]

/-- Modelled from the spec: BCH(31,21) systematic-free encoder, mapping 21
data bits to the 31-bit multiple `d * g` of the generator. -/
def bch3121_encode (d : Nat) : Nat := cmul d g3121

/-- Modelled from the spec: BCH(31,21) syndrome decoder. It looks the
received word's syndrome up among the syndromes of all correctable (weight
at most two) error patterns; on a hit it cancels that pattern and returns
the recovered data bits, otherwise it reports the distinguished failure
`none` (spec 4.1: a codeword-unrecoverable signal, not silent wrong
data). -/
def bch3121_decode (r : Nat) : Option Nat :=
  match errList.find? (fun e => flexSyndrome e == flexSyndrome r) with
  | some e => some ((polyDivMod g3121 (r ^^^ e)).1)
  | none => none

/-- Modelled from the spec: the contract the spec claims for the decoder it
calls BCH(31,23) — an encoding of 23 data bits into 31-bit words such that
decoding any received word within Hamming distance two of a codeword
returns exactly the encoded data. (`bitErrors` counts the differing
positions.) -/
def bitErrors (x y : Fin 31 → Bool) : Nat :=
  (Finset.univ.filter fun i => x i ≠ y i).card

/-- Modelled from the spec: a BCH(31,23) decoder as the spec describes it,
packaged with its claimed correctness property. -/
structure BCH3123 where
  encode : (Fin 23 → Bool) → (Fin 31 → Bool)
  decode : (Fin 31 → Bool) → Option (Fin 23 → Bool)
  decode_correct : ∀ (d : Fin 23 → Bool) (w : Fin 31 → Bool),
    bitErrors (encode d) w ≤ 2 → decode w = some d

/-- Flip the bits of a 31-bit word at the positions collected in `s` (an
explicit error pattern applied to a transmitted codeword). -/
def flipOn (w : Fin 31 → Bool) (s : Finset (Fin 31)) : Fin 31 → Bool :=
  fun i => if i ∈ s then !w i else w i

/-! ## FLEX decoder model (src/pager/pager_flex.h)

The header declares the decoder's types and entry points but pager_flex.c
is not among the provided sources, so the state machines are modelled from
the spec (sections 4.2, 4.3 and 4.5): the data layout follows the structs
of pager_flex.h exactly, and every constant the spec leaves unstated
(bitsync pattern, sync-word table, Hamming tolerance, dot and frame
counts, discrimination margin) is one fixed modelled value, noted below. -/

/-- `enum pager_flex_msg_type` of pager_flex.h. -/
inductive PagerFlexMsgType
  | UNKNOWN
  | ALPHANUMERIC
  | NUMERIC
  | TONE
deriving DecidableEq

/-- `enum pager_flex_modulation` of pager_flex.h. -/
inductive PagerFlexModulation
  | FSK2
  | FSK4
deriving DecidableEq

/-- `enum pager_flex_state` of pager_flex.h. -/
inductive PagerFlexState
  | SYNC_1
  | SYNC_2
  | BLOCK
deriving DecidableEq

/-- `enum pager_flex_sync_state` of pager_flex.h. -/
inductive PagerFlexSyncState
  | SEARCH_BS1
  | BS1
  | A
  | B
  | INV_A
  | FIW
  | SYNCED
deriving DecidableEq

/-- `enum pager_flex_sync_2_state` of pager_flex.h. -/
inductive PagerFlexSync2State
  | COMMA
  | C
  | INV_COMMA
  | INV_C
  | SYNCED
deriving DecidableEq

/-- Modelled from the spec: one entry of the table of valid A sync words,
each mapped to a baud rate and modulation (`struct pager_flex_coding`, whose
layout is not in the provided sources). -/
structure PagerFlexCoding where
  a_word : Nat
  baud : Nat
  modulation : PagerFlexModulation
deriving DecidableEq

/-- `struct pager_flex_sync` of pager_flex.h: the Sync1 stage tracker. The
ten-slot `sync_words` array is modelled as the list of occupied entries
(`uint32_t sync_words[10]`), the `coding` pointer as an `Option`. -/
structure PagerFlexSync where
  sync_words : List Nat
  state : PagerFlexSyncState
  sample_counter : Nat
  bit_counter : Nat
  a : Nat
  b : Nat
  inv_a : Nat
  fiw : Nat
  coding : Option PagerFlexCoding
deriving DecidableEq

/-- `struct pager_flex_sync_2` of pager_flex.h: the Sync2 stage tracker. -/
structure PagerFlexSync2 where
  state : PagerFlexSync2State
  nr_dots : Nat
  c : Nat
  nr_c : Nat
  range_avg_sum_high : Int
  range_avg_sum_low : Int
  range_avg_count_high : Nat
  range_avg_count_low : Nat
deriving DecidableEq

/-- Modelled from the spec: BLOCK-state word assembly (spec 4.5 —
accumulates symbols into 31-bit codewords, applies the BCH decoder per
codeword, collects the corrected words of the frame). -/
structure PagerFlexBlock where
  bit_acc : Nat
  bit_count : Nat
  words : List Nat
deriving DecidableEq

/-- One invocation of the registered `pager_flex_on_message_cb_t` callback:
its baud, phase, cap code, message type, message bytes (`none` models a
NULL `message_bytes` pointer) and message length arguments. -/
structure PagerFlexMessage where
  baud : Nat
  phase : Char
  cap_code : Nat
  msg_type : PagerFlexMsgType
  message_bytes : Option (List Char)
  message_len : Nat
deriving DecidableEq

/-- `struct pager_flex` of pager_flex.h (the callback pointer is left out:
callback invocations are the step function's explicit output). -/
structure PagerFlex where
  slice_range_high : Int
  slice_range_low : Int
  sync : PagerFlexSync
  sync_2 : PagerFlexSync2
  baud_rate : Nat
  modulation : PagerFlexModulation
  symbol_counter : Nat
  state : PagerFlexState
  skip : Nat
  skip_count : Nat
  symbol_samples : Nat
  freq_hz : Nat
  block : PagerFlexBlock
deriving DecidableEq

/-- Modelled from the spec: the alternating 1/0 bitsync preamble word. -/
def flexBS1Pattern : Nat := 0xAAAAAAAA

/-- Modelled from the spec: the small Hamming-distance tolerance used when
matching sync patterns. -/
def flexSyncTolerance : Nat := 2

/-- Modelled from the spec: the table of valid A sync words, each mapped to
a baud rate and modulation (the real FLEX table values are not in the
provided sources; the entries are fixed representative words). -/
def flexCodings : List PagerFlexCoding :=
  [⟨0x870C78F3, 1600, PagerFlexModulation.FSK2⟩,
   ⟨0xB0684F97, 1600, PagerFlexModulation.FSK4⟩,
   ⟨0xDEA0215F, 3200, PagerFlexModulation.FSK2⟩,
   ⟨0x4C7CB383, 3200, PagerFlexModulation.FSK4⟩]

/-- Append to the ten-slot sync-word history: a full history discards its
oldest entry (ring behavior over `uint32_t sync_words[10]`). -/
def ring_push (l : List Nat) (w : Nat) : List Nat :=
  if l.length < 10 then l ++ [w] else l.tail ++ [w]

/-- Modelled from the spec: reset of the Sync1 tracker on validation
failure — back to SEARCH_BS1 with the sample counter, bit counter and the
a/b/inv_a/fiw accumulators restored to their initial values (the recorded
history of sync words is diagnostic and kept). -/
def pager_flex_sync_reset (s : PagerFlexSync) : PagerFlexSync :=
  { s with
    state := PagerFlexSyncState.SEARCH_BS1
    sample_counter := 0
    bit_counter := 0
    a := 0
    b := 0
    inv_a := 0
    fiw := 0
    coding := none }

/-- The freshly rebuilt Sync1 tracker (decoder construction and frame
completion both start here, spec 4.2). -/
def initFlexSync : PagerFlexSync :=
  ⟨[], PagerFlexSyncState.SEARCH_BS1, 0, 0, 0, 0, 0, 0, none⟩

/-- Modelled from the spec: the FIW internal checksum — the low six 4-bit
nibbles must sum to 15 modulo 16. -/
def fiw_checksum_ok (w : Nat) : Bool :=
  ((w &&& 0xF) + ((w >>> 4) &&& 0xF) + ((w >>> 8) &&& 0xF) +
    ((w >>> 12) &&& 0xF) + ((w >>> 16) &&& 0xF) + ((w >>> 20) &&& 0xF))
    % 16 == 15

/-- Modelled from the spec (4.2): one bit of Sync1 processing. SEARCH_BS1
rolls a 32-bit window until it matches the bitsync preamble within
tolerance and records the match in the sync-word history; A matches the
accumulated word against the coding table; B accumulates 16 unvalidated
bits; INV_A checks the accumulated word against the bitwise complement of
the matched A word within tolerance, resetting on mismatch; FIW validates
the frame information word checksum; SYNCED is terminal for this
sub-machine. -/
def pager_flex_sync_on_bit (s : PagerFlexSync) (bit : Nat) : PagerFlexSync :=
  match s.state with
  | PagerFlexSyncState.SEARCH_BS1 =>
    let w := ((s.a <<< 1) ||| (bit &&& 1)) &&& 0xFFFFFFFF
    if wt (w ^^^ flexBS1Pattern) ≤ flexSyncTolerance then
      { s with
        state := PagerFlexSyncState.A
        a := 0
        bit_counter := 0
        sample_counter := 0
        sync_words := ring_push s.sync_words w }
    else { s with a := w, sample_counter := s.sample_counter + 1 }
  | PagerFlexSyncState.BS1 => s
  | PagerFlexSyncState.A =>
    let a2 := ((s.a <<< 1) ||| (bit &&& 1)) &&& 0xFFFFFFFF
    if s.bit_counter + 1 = 32 then
      match flexCodings.find?
          (fun cd => wt (a2 ^^^ cd.a_word) ≤ flexSyncTolerance) with
      | some cd =>
        { s with
          state := PagerFlexSyncState.B
          a := a2
          bit_counter := 0
          coding := some cd }
      | none => pager_flex_sync_reset s
    else { s with a := a2, bit_counter := s.bit_counter + 1 }
  | PagerFlexSyncState.B =>
    let b2 := ((s.b <<< 1) ||| (bit &&& 1)) &&& 0xFFFF
    if s.bit_counter + 1 = 16 then
      { s with state := PagerFlexSyncState.INV_A, b := b2, bit_counter := 0 }
    else { s with b := b2, bit_counter := s.bit_counter + 1 }
  | PagerFlexSyncState.INV_A =>
    let ia := ((s.inv_a <<< 1) ||| (bit &&& 1)) &&& 0xFFFFFFFF
    if s.bit_counter + 1 = 32 then
      if wt (ia ^^^ (s.a ^^^ 0xFFFFFFFF)) ≤ flexSyncTolerance then
        { s with state := PagerFlexSyncState.FIW, inv_a := ia, bit_counter := 0 }
      else pager_flex_sync_reset s
    else { s with inv_a := ia, bit_counter := s.bit_counter + 1 }
  | PagerFlexSyncState.FIW =>
    let f2 := ((s.fiw <<< 1) ||| (bit &&& 1)) &&& 0xFFFFFFFF
    if s.bit_counter + 1 = 32 then
      if fiw_checksum_ok f2 then
        { s with state := PagerFlexSyncState.SYNCED, fiw := f2, bit_counter := 0 }
      else pager_flex_sync_reset s
    else { s with fiw := f2, bit_counter := s.bit_counter + 1 }
  | PagerFlexSyncState.SYNCED => s

/-- The fresh Sync2 tracker created at Sync2 entry. -/
def initFlexSync2 : PagerFlexSync2 :=
  ⟨PagerFlexSync2State.COMMA, 0, 0, 0, 0, 0, 0, 0⟩

/-- Modelled from the spec: number of dot samples accumulated per comma
phase. -/
def flexDotsTarget : Nat := 16

/-- Modelled from the spec: number of bits of the C pattern. -/
def flexCBits : Nat := 16

/-- Modelled from the spec (4.3): one sample of Sync2 processing. The comma
phases accumulate the envelope (running sums and counts of samples above
and below the midpoint); the C phases accumulate the diagnostic C pattern;
SYNCED is terminal for this sub-machine. -/
def pager_flex_sync_2_on_sample (s : PagerFlexSync2) (x : Int) :
    PagerFlexSync2 :=
  match s.state with
  | PagerFlexSync2State.COMMA =>
    let t := if x ≥ 0 then
        { s with
          range_avg_sum_high := s.range_avg_sum_high + x
          range_avg_count_high := s.range_avg_count_high + 1 }
      else
        { s with
          range_avg_sum_low := s.range_avg_sum_low + x
          range_avg_count_low := s.range_avg_count_low + 1 }
    if s.nr_dots + 1 = flexDotsTarget then
      { t with state := PagerFlexSync2State.C, nr_dots := 0 }
    else { t with nr_dots := s.nr_dots + 1 }
  | PagerFlexSync2State.C =>
    let bit : Nat := if x ≥ 0 then 1 else 0
    let t := { s with c := ((s.c <<< 1) ||| bit) &&& 0xFFFF }
    if s.nr_c + 1 = flexCBits then
      { t with state := PagerFlexSync2State.INV_COMMA, nr_c := 0 }
    else { t with nr_c := s.nr_c + 1 }
  | PagerFlexSync2State.INV_COMMA =>
    let t := if x ≥ 0 then
        { s with
          range_avg_sum_high := s.range_avg_sum_high + x
          range_avg_count_high := s.range_avg_count_high + 1 }
      else
        { s with
          range_avg_sum_low := s.range_avg_sum_low + x
          range_avg_count_low := s.range_avg_count_low + 1 }
    if s.nr_dots + 1 = flexDotsTarget then
      { t with state := PagerFlexSync2State.INV_C, nr_dots := 0 }
    else { t with nr_dots := s.nr_dots + 1 }
  | PagerFlexSync2State.INV_C =>
    let bit : Nat := if x ≥ 0 then 0 else 1
    let t := { s with c := ((s.c <<< 1) ||| bit) &&& 0xFFFF }
    if s.nr_c + 1 = flexCBits then
      { t with state := PagerFlexSync2State.SYNCED, nr_c := 0 }
    else { t with nr_c := s.nr_c + 1 }
  | PagerFlexSync2State.SYNCED => s

/-- 2FSK slicing: one bit from the sample's sign (spec 4.4). -/
def slice2 (x : Int) : Nat := if x ≥ 0 then 1 else 0

/-- 4FSK slicing: a 2-bit symbol from comparing the sample against
`slice_range_high`, zero and `slice_range_low` (spec 4.4). -/
def slice4 (f : PagerFlex) (x : Int) : Nat :=
  if x > f.slice_range_high then 3
  else if x ≥ 0 then 2
  else if x ≥ f.slice_range_low then 1
  else 0

/-- Modelled from the spec: minimum discrimination margin between the
averaged high and low levels for 4FSK slicing to stay active. -/
def flexMinDiscrim : Int := 1000

/-- Modelled from the spec: number of corrected words that completes a
frame's block phase. -/
def flexFrameWords : Nat := 8

/-- Decimal digit character. -/
def digitChar (d : Nat) : Char := Char.ofNat (48 + d)

/-- Helper for `renderDigits`, with structural fuel. -/
def renderAux : Nat → Nat → List Char → List Char
  | 0, _, acc => acc
  | fuel + 1, n, acc =>
    if n = 0 then acc
    else renderAux fuel (n / 10) (digitChar (n % 10) :: acc)

/-- Modelled from the spec: ASCII rendering of a decoded word. -/
def renderDigits (n : Nat) : List Char :=
  if n = 0 then ['0'] else renderAux n n []

/-- Modelled from the spec (4.5) and the pager_flex.h callback doc: build a
callback invocation for a completed message. TONE messages carry a NULL
body and length 0; ALPHANUMERIC and NUMERIC carry the rendered body;
UNKNOWN carries the raw post-correction words. -/
def pager_flex_deliver (baud : Nat) (phase : Char) (cap : Nat)
    (ty : PagerFlexMsgType) (body raw : List Char) : PagerFlexMessage :=
  match ty with
  | PagerFlexMsgType.TONE => ⟨baud, phase, cap, ty, none, 0⟩
  | PagerFlexMsgType.ALPHANUMERIC => ⟨baud, phase, cap, ty, some body, body.length⟩
  | PagerFlexMsgType.NUMERIC => ⟨baud, phase, cap, ty, some body, body.length⟩
  | PagerFlexMsgType.UNKNOWN => ⟨baud, phase, cap, ty, some raw, raw.length⟩

/-- Modelled from the spec: interpretation of one corrected data word as a
completed message (type in the low two bits, cap code above them). -/
def pager_flex_word_message (baud w : Nat) : PagerFlexMessage :=
  let ty := match w % 4 with
    | 0 => PagerFlexMsgType.UNKNOWN
    | 1 => PagerFlexMsgType.ALPHANUMERIC
    | 2 => PagerFlexMsgType.NUMERIC
    | _ => PagerFlexMsgType.TONE
  pager_flex_deliver baud 'A' ((w >>> 2) &&& 0x1FFFFF) ty
    (renderDigits (w >>> 23)) (renderDigits w)

/-- Modelled from the spec (4.5): shift one bit into the block word
accumulator; a completed 31-bit word goes through the BCH corrector, an
uncorrectable word is dropped (block lost, decoding continues). -/
def block_push_bit (bl : PagerFlexBlock) (bit : Nat) : PagerFlexBlock :=
  let acc := ((bl.bit_acc <<< 1) ||| (bit &&& 1)) &&& 0x7FFFFFFF
  if bl.bit_count + 1 = 31 then
    match bch3121_decode acc with
    | some d => ⟨0, 0, bl.words ++ [d]⟩
    | none => ⟨0, 0, bl.words⟩
  else { bl with bit_acc := acc, bit_count := bl.bit_count + 1 }

/-- Push a list of bits through the block accumulator in order. -/
def block_push_bits (bl : PagerFlexBlock) (bits : List Nat) : PagerFlexBlock :=
  bits.foldl block_push_bit bl

/-- Modelled from the spec (4.5): one PCM sample through the top-level
decoder. Samples are decimated to symbol instants via `symbol_counter`;
the active sub-stage consumes the symbol; a sub-stage signalling
completion reconfigures the decoder immediately: Sync1 SYNCED installs
the matched coding and rebuilds a fresh Sync2; Sync2 SYNCED installs the
averaged slicing thresholds, decides 2FSK fallback and enters BLOCK; a
completed frame dispatches its messages and returns to SYNC_1 with a
fresh Sync1 tracker. The returned list is the sequence of callback
invocations this sample produced. -/
def pager_flex_step (f : PagerFlex) (x : Int) :
    PagerFlex × List PagerFlexMessage :=
  if f.symbol_counter + 1 < f.symbol_samples then
    ({ f with symbol_counter := f.symbol_counter + 1 }, [])
  else
    let f0 := { f with symbol_counter := 0 }
    match f.state with
    | PagerFlexState.SYNC_1 =>
      let s2 := pager_flex_sync_on_bit f.sync (slice2 x)
      if s2.state = PagerFlexSyncState.SYNCED then
        ({ f0 with
            sync := s2
            state := PagerFlexState.SYNC_2
            sync_2 := initFlexSync2
            baud_rate := match s2.coding with
              | some cd => cd.baud
              | none => f.baud_rate
            modulation := match s2.coding with
              | some cd => cd.modulation
              | none => f.modulation }, [])
      else ({ f0 with sync := s2 }, [])
    | PagerFlexState.SYNC_2 =>
      let t := pager_flex_sync_2_on_sample f.sync_2 x
      if t.state = PagerFlexSync2State.SYNCED then
        let high := t.range_avg_sum_high / (t.range_avg_count_high : Int)
        let low := t.range_avg_sum_low / (t.range_avg_count_low : Int)
        ({ f0 with
            sync_2 := t
            state := PagerFlexState.BLOCK
            slice_range_high := high
            slice_range_low := low
            modulation := if high - low > flexMinDiscrim then f.modulation
              else PagerFlexModulation.FSK2
            block := ⟨0, 0, []⟩ }, [])
      else ({ f0 with sync_2 := t }, [])
    | PagerFlexState.BLOCK =>
      let bits := match f.modulation with
        | PagerFlexModulation.FSK2 => [slice2 x]
        | PagerFlexModulation.FSK4 =>
          let sym := slice4 f x
          [sym >>> 1, sym &&& 1]
      let bl := block_push_bits f.block bits
      if flexFrameWords ≤ bl.words.length then
        ({ f0 with
            state := PagerFlexState.SYNC_1
            sync := initFlexSync
            block := ⟨0, 0, []⟩ },
          bl.words.map (pager_flex_word_message f.baud_rate))
      else ({ f0 with block := bl }, [])

/-- `pager_flex_new` of pager_flex.h: a fresh decoder for one channel
(16 kHz input, 1600 baud and 2FSK at start per the header comments, ten
samples per symbol). -/
def pager_flex_new (freq_hz : Nat) : PagerFlex :=
  { slice_range_high := 0
    slice_range_low := 0
    sync := initFlexSync
    sync_2 := initFlexSync2
    baud_rate := 1600
    modulation := PagerFlexModulation.FSK2
    symbol_counter := 0
    state := PagerFlexState.SYNC_1
    skip := 0
    skip_count := 0
    symbol_samples := 10
    freq_hz := freq_hz
    block := ⟨0, 0, []⟩ }

/-- `pager_flex_on_pcm`: push a buffer of PCM samples through the decoder
one sample at a time, collecting the callback invocations in order. -/
def pager_flex_on_pcm : PagerFlex → List Int →
    PagerFlex × List PagerFlexMessage
  | f, [] => (f, [])
  | f, x :: xs =>
    let r := pager_flex_step f x
    let rest := pager_flex_on_pcm r.1 xs
    (rest.1, r.2 ++ rest.2)

/-- The same samples pushed chunk by chunk: one `pager_flex_on_pcm` call
per chunk, in order, state carried across calls. -/
def pager_flex_on_pcm_chunks : PagerFlex → List (List Int) →
    PagerFlex × List PagerFlexMessage
  | f, [] => (f, [])
  | f, c :: cs =>
    let r := pager_flex_on_pcm f c
    let rest := pager_flex_on_pcm_chunks r.1 cs
    (rest.1, r.2 ++ rest.2)

/-- Decoder states reachable from construction by pushing samples. -/
inductive PagerFlexReachable : PagerFlex → Prop
  | new (freq_hz : Nat) : PagerFlexReachable (pager_flex_new freq_hz)
  | step (f : PagerFlex) (x : Int) : PagerFlexReachable f →
      PagerFlexReachable (pager_flex_step f x).1

/-! ## Theorems about the parsers -/

theorem memShift_mul_pow (a k : Nat) :
    memShift (a * 2 ^ k % 2 ^ 64) = a * 2 ^ (k + 10) % 2 ^ 64 := by
  rw [memShift, Nat.shiftLeft_eq, pow_add, ← mul_assoc]
  conv_rhs => rw [Nat.mul_mod]
  rw [Nat.mul_mod (a * 2 ^ k % 2 ^ 64), Nat.mod_mod_of_dvd _ dvd_rfl]

/-- C10: for every non-null input, `tsl_parse_mem_bytes` returns `A_OK` and
stores the parsed number shifted left by ten bits per unit step (`K`/`k`
by 10, up to `E`/`e` by 60, any other trailing character left unscaled),
reduced modulo `2 ^ 64`; it never fails for non-null arguments. -/
theorem tsl_parse_mem_bytes_scales (s : CStr) (prev : Nat) :
    tsl_parse_mem_bytes false false s prev =
      (Aresult.A_OK, s.n * 2 ^ memSuffixShift (headChar s.rest) % 2 ^ 64) := by
  have hs : s.n % 2 ^ 64 = s.n * 2 ^ 0 % 2 ^ 64 := by rw [pow_zero, mul_one]
  unfold tsl_parse_mem_bytes memSuffixShift
  simp only [Bool.or_self, Bool.false_eq_true, if_false, hs]
  by_cases hE : headChar s.rest = 'E' ∨ headChar s.rest = 'e'
  · simp only [hE, if_true, memShift_mul_pow]
  · by_cases hP : headChar s.rest = 'P' ∨ headChar s.rest = 'p'
    · simp only [hE, hP, if_false, if_true, memShift_mul_pow]
    · by_cases hT : headChar s.rest = 'T' ∨ headChar s.rest = 't'
      · simp only [hE, hP, hT, if_false, if_true, memShift_mul_pow]
      · by_cases hG : headChar s.rest = 'G' ∨ headChar s.rest = 'g'
        · simp only [hE, hP, hT, hG, if_false, if_true, memShift_mul_pow]
        · by_cases hM : headChar s.rest = 'M' ∨ headChar s.rest = 'm'
          · simp only [hE, hP, hT, hG, hM, if_false, if_true, memShift_mul_pow]
          · by_cases hK : headChar s.rest = 'K' ∨ headChar s.rest = 'k'
            · simp only [hE, hP, hT, hG, hM, hK, if_false, if_true,
                memShift_mul_pow]
            · simp only [hE, hP, hT, hG, hM, hK, if_false]

theorem tsl_parse_mem_bytes_scales_witness :
    tsl_parse_mem_bytes false false ⟨6, ['K']⟩ 0 =
      (Aresult.A_OK, 6 * 2 ^ memSuffixShift (headChar (CStr.mk 6 ['K']).rest) % 2 ^ 64) :=
  tsl_parse_mem_bytes_scales ⟨6, ['K']⟩ 0

/-- C9: for every non-null input whose parsed numeric prefix is zero, or
which is a bare number with no unit suffix at all, `tsl_parse_time_interval`
returns `A_OK` and leaves `*val` at its previous value. -/
theorem tsl_parse_time_interval_no_store (s : CStr) (prev : Nat)
    (h : s.n = 0 ∨ s.rest = []) :
    tsl_parse_time_interval false false s prev = (Aresult.A_OK, prev) := by
  unfold tsl_parse_time_interval
  simp only [Bool.or_self, Bool.false_eq_true, if_false]
  rcases h with h | h
  · rw [if_pos (Or.inl (by simp [h]))]
  · rw [if_pos (Or.inr h)]

theorem tsl_parse_time_interval_no_store_witness :
    tsl_parse_time_interval false false ⟨0, ['s']⟩ 3 = (Aresult.A_OK, 3) :=
  tsl_parse_time_interval_no_store ⟨0, ['s']⟩ 3 (Or.inl rfl)

/-- C3: the final validation check of `tsl_parse_time_interval` is a
tautology (for every character it reads, at least one of the two disequality
disjuncts holds), so every call that parses a nonzero number followed by a
recognized unit suffix returns `A_E_INVAL` and never stores the scaled
value. -/
theorem tsl_parse_time_interval_suffix_inval (s : CStr) (prev : Nat)
    (h0 : s.n % 2 ^ 64 ≠ 0) (h1 : s.rest ≠ [])
    (h2 : headChar s.rest = 'n' ∨ headChar s.rest = 'u' ∨
      headChar s.rest = 'm' ∨ headChar s.rest = 's') :
    (∀ c : Char, c ≠ Char.ofNat 0 ∨ c ≠ 's') ∧
      tsl_parse_time_interval false false s prev = (Aresult.A_E_INVAL, prev) := by
  have always : ∀ c : Char, c ≠ Char.ofNat 0 ∨ c ≠ 's' := by
    intro c
    by_cases h : c = 's'
    · exact Or.inl (h ▸ by decide)
    · exact Or.inr h
  refine ⟨always, ?_⟩
  unfold tsl_parse_time_interval
  simp only [Bool.or_self, Bool.false_eq_true, if_false]
  rw [if_neg (by push_neg; exact ⟨h0, h1⟩)]
  rcases h2 with h2 | h2 | h2 | h2 <;>
    simp only [h2, if_true, if_false, reduceCtorEq, Char.reduceEq] <;>
    rw [if_pos (always (headChar s.rest.tail))]

theorem tsl_parse_time_interval_suffix_inval_witness :
    (∀ c : Char, c ≠ Char.ofNat 0 ∨ c ≠ 's') ∧
      tsl_parse_time_interval false false ⟨5, ['s']⟩ 7 = (Aresult.A_E_INVAL, 7) :=
  tsl_parse_time_interval_suffix_inval ⟨5, ['s']⟩ 7 (by decide) (by decide)
    (by decide)

/-- C8: with a NULL string argument or a NULL output pointer, both parsers
return the invalid-argument error immediately and do not write `*val`. -/
theorem tsl_parse_null_args (strNull valNull : Bool) (s : CStr) (prev : Nat)
    (h : strNull = true ∨ valNull = true) :
    tsl_parse_mem_bytes strNull valNull s prev = (Aresult.A_E_BADARGS, prev) ∧
      tsl_parse_time_interval strNull valNull s prev = (Aresult.A_E_BADARGS, prev) := by
  have hor : (strNull || valNull) = true := by
    rcases h with h | h <;> simp [h]
  constructor
  · unfold tsl_parse_mem_bytes
    rw [if_pos hor]
  · unfold tsl_parse_time_interval
    rw [if_pos hor]

theorem tsl_parse_null_args_witness :
    tsl_parse_mem_bytes true false ⟨1, []⟩ 9 = (Aresult.A_E_BADARGS, 9) ∧
      tsl_parse_time_interval true false ⟨1, []⟩ 9 = (Aresult.A_E_BADARGS, 9) :=
  tsl_parse_null_args true false ⟨1, []⟩ 9 (Or.inl rfl)

/-! ## GF(2) bit-vector algebra -/

theorem xor_shiftLeft (x y k : Nat) :
    (x ^^^ y) <<< k = (x <<< k) ^^^ (y <<< k) := by
  apply Nat.eq_of_testBit_eq
  intro i
  rw [Nat.testBit_xor, Nat.testBit_shiftLeft, Nat.testBit_shiftLeft,
    Nat.testBit_shiftLeft, Nat.testBit_xor]
  by_cases h : k ≤ i <;> simp [h]

theorem xor_div_two (x y : Nat) : (x ^^^ y) / 2 = x / 2 ^^^ y / 2 := by
  have hsr : ∀ z : Nat, z / 2 = z >>> 1 := fun z => by
    rw [Nat.shiftRight_eq_div_pow, pow_one]
  rw [hsr, hsr, hsr]
  apply Nat.eq_of_testBit_eq
  intro i
  rw [Nat.testBit_xor, Nat.testBit_shiftRight, Nat.testBit_shiftRight,
    Nat.testBit_shiftRight, Nat.testBit_xor]

theorem xor_mod_two (x y : Nat) : (x ^^^ y) % 2 = x % 2 ^^^ y % 2 := by
  rw [← Nat.and_one_is_mod, ← Nat.and_one_is_mod, ← Nat.and_one_is_mod,
    Nat.and_xor_distrib_right]

theorem xor_cancel_right2 (a m b : Nat) : (a ^^^ m) ^^^ (b ^^^ m) = a ^^^ b := by
  rw [Nat.xor_comm b m, ← Nat.xor_assoc, Nat.xor_assoc a m m, Nat.xor_self,
    Nat.xor_zero]

theorem xor_cancel_left2 (m a b : Nat) : (m ^^^ a) ^^^ (m ^^^ b) = a ^^^ b := by
  rw [Nat.xor_comm m a, Nat.xor_comm m b, xor_cancel_right2]

theorem xor_left_cancel (m a b : Nat) (h : m ^^^ a = m ^^^ b) : a = b := by
  have h2 : m ^^^ (m ^^^ a) = m ^^^ (m ^^^ b) := by rw [h]
  rwa [← Nat.xor_assoc, Nat.xor_self, Nat.zero_xor, ← Nat.xor_assoc,
    Nat.xor_self, Nat.zero_xor] at h2

theorem testBit_true_of_between (n i : Nat) (h1 : 2 ^ i ≤ n)
    (h2 : n < 2 ^ (i + 1)) : n.testBit i = true := by
  rw [Nat.testBit_to_div_mod]
  have hdiv : n / 2 ^ i = 1 := by
    apply Nat.div_eq_of_lt_le (by simpa using h1)
    rw [pow_succ] at h2
    omega
  simp [hdiv]

theorem lt_pow_of_testBit_false (n i : Nat) (h2 : n < 2 ^ (i + 1))
    (hb : n.testBit i = false) : n < 2 ^ i := by
  by_contra h
  push_neg at h
  rw [testBit_true_of_between n i h h2] at hb
  simp at hb

theorem xor_ge (x y k : Nat) (hx : 2 ^ k ≤ x) (hy : y < 2 ^ k) :
    2 ^ k ≤ x ^^^ y := by
  by_contra h
  push_neg at h
  have hxy : x < 2 ^ k := by
    have hlt := Nat.xor_lt_two_pow h hy
    rwa [Nat.xor_assoc, Nat.xor_self, Nat.xor_zero] at hlt
  omega

theorem cmul_zero (b : Nat) : cmul 0 b = 0 := by
  rw [cmul]
  simp

theorem cmul_ne (a b : Nat) (h : a ≠ 0) :
    cmul a b = (a % 2 * b) ^^^ (cmul (a / 2) b <<< 1) := by
  rw [cmul, dif_neg h]

theorem cmul_one (b : Nat) : cmul 1 b = b := by
  rw [cmul_ne 1 b one_ne_zero, cmul_zero]
  simp [Nat.zero_shiftLeft]

theorem cmul_two_pow (k b : Nat) : cmul (2 ^ k) b = b <<< k := by
  induction k with
  | zero => simpa [Nat.shiftLeft_zero] using cmul_one b
  | succ k ih =>
    have hne : (2 : Nat) ^ (k + 1) ≠ 0 := (Nat.two_pow_pos (k + 1)).ne'
    have hmod : 2 ^ (k + 1) % 2 = 0 := by
      rw [pow_succ]
      exact Nat.mul_mod_left _ 2
    have hdiv : 2 ^ (k + 1) / 2 = 2 ^ k := by
      rw [pow_succ]
      exact Nat.mul_div_cancel _ two_pos
    rw [cmul_ne _ _ hne, hmod, hdiv, ih, zero_mul, Nat.zero_xor,
      ← Nat.shiftLeft_add]

theorem cmul_xor_left (a : Nat) : ∀ c b : Nat,
    cmul (a ^^^ c) b = cmul a b ^^^ cmul c b := by
  induction a using Nat.strong_induction_on with
  | _ a ih =>
    intro c b
    by_cases ha : a = 0
    · subst ha
      rw [Nat.zero_xor, cmul_zero, Nat.zero_xor]
    by_cases hc : c = 0
    · subst hc
      rw [Nat.xor_zero, cmul_zero, Nat.xor_zero]
    by_cases hac : a ^^^ c = 0
    · rw [hac, Nat.xor_eq_zero.mp hac, Nat.xor_self, cmul_zero]
    have hlow : (a ^^^ c) % 2 * b = a % 2 * b ^^^ c % 2 * b := by
      rw [xor_mod_two]
      rcases Nat.mod_two_eq_zero_or_one a with h1 | h1 <;>
        rcases Nat.mod_two_eq_zero_or_one c with h2 | h2 <;>
        simp [h1, h2, Nat.xor_self]
    rw [cmul_ne _ _ hac, cmul_ne _ _ ha, cmul_ne _ _ hc, xor_div_two,
      ih (a / 2) (Nat.div_lt_self (Nat.pos_of_ne_zero ha) one_lt_two) (c / 2) b,
      hlow, xor_shiftLeft]
    generalize a % 2 * b = la
    generalize c % 2 * b = lc
    generalize cmul (a / 2) b <<< 1 = ha2
    generalize cmul (c / 2) b <<< 1 = hc2
    rw [Nat.xor_assoc la lc (ha2 ^^^ hc2), ← Nat.xor_assoc lc ha2 hc2,
      Nat.xor_comm lc ha2, Nat.xor_assoc ha2 lc hc2,
      ← Nat.xor_assoc la ha2 (lc ^^^ hc2)]

theorem cmul_ge (g : Nat) (hg1 : 2 ^ 10 ≤ g) (hg2 : g < 2 ^ 11) :
    ∀ q : Nat, q ≠ 0 → 2 ^ 10 ≤ cmul q g := by
  intro q
  induction q using Nat.strong_induction_on with
  | _ q ih =>
    intro hq
    by_cases h1 : q = 1
    · subst h1
      rwa [cmul_one]
    have hq2 : q / 2 ≠ 0 := by
      intro h0
      have hdm := Nat.div_add_mod q 2
      have hm2 : q % 2 < 2 := Nat.mod_lt _ two_pos
      omega
    have hx := ih (q / 2) (Nat.div_lt_self (Nat.pos_of_ne_zero hq) one_lt_two) hq2
    have hhigh : 2 ^ 11 ≤ cmul (q / 2) g <<< 1 := by
      rw [Nat.shiftLeft_eq, pow_one]
      calc (2 : Nat) ^ 11 = 2 ^ 10 * 2 := by norm_num
      _ ≤ cmul (q / 2) g * 2 := Nat.mul_le_mul_right 2 hx
    have hlow : q % 2 * g < 2 ^ 11 := by
      rcases Nat.mod_two_eq_zero_or_one q with h | h <;> simp [h]
      simpa using hg2
    calc (2 : Nat) ^ 10 ≤ 2 ^ 11 := by norm_num
    _ ≤ (cmul (q / 2) g <<< 1) ^^^ (q % 2 * g) := xor_ge _ _ _ hhigh hlow
    _ = cmul q g := by rw [Nat.xor_comm, ← cmul_ne _ _ hq]

theorem cmul_lt (m : Nat) : ∀ a b k : Nat, a < 2 ^ (m + 1) → b < 2 ^ (k + 1) →
    cmul a b < 2 ^ (m + k + 1) := by
  induction m with
  | zero =>
    intro a b k ha hb
    interval_cases a
    · rw [cmul_zero]
      exact Nat.two_pow_pos _
    · rw [cmul_one]
      simpa using hb
  | succ m ih =>
    intro a b k ha hb
    by_cases h0 : a = 0
    · subst h0
      rw [cmul_zero]
      exact Nat.two_pow_pos _
    rw [cmul_ne _ _ h0]
    have hlow : a % 2 * b < 2 ^ (m + 1 + k + 1) := by
      rcases Nat.mod_two_eq_zero_or_one a with h | h <;> simp [h]
      calc b < 2 ^ (k + 1) := hb
        _ ≤ 2 ^ (m + 1 + k + 1) := Nat.pow_le_pow_right (by norm_num) (by omega)
    have hdiv : a / 2 < 2 ^ (m + 1) := by
      rw [Nat.div_lt_iff_lt_mul two_pos]
      calc a < 2 ^ (m + 1 + 1) := ha
        _ = 2 ^ (m + 1) * 2 := by rw [pow_succ]
    have hhigh : cmul (a / 2) b <<< 1 < 2 ^ (m + 1 + k + 1) := by
      rw [Nat.shiftLeft_eq, pow_one]
      have hrec := ih (a / 2) b k hdiv hb
      calc cmul (a / 2) b * 2 < 2 ^ (m + k + 1) * 2 := by omega
        _ = 2 ^ (m + k + 1 + 1) := (pow_succ 2 _).symm
        _ ≤ 2 ^ (m + 1 + k + 1) := Nat.pow_le_pow_right (by norm_num) (by omega)
    exact Nat.xor_lt_two_pow hlow hhigh

theorem redAux_snd_lt (g : Nat) (hg1 : 2 ^ 10 ≤ g) (hg2 : g < 2 ^ 11) :
    ∀ j q r : Nat, r < 2 ^ (j + 10) → (redAux g j (q, r)).2 < 2 ^ 10 := by
  intro j
  induction j with
  | zero => intro q r hr; simpa using hr
  | succ j ih =>
    intro q r hr
    show (redAux g j (redStep g (j + 10) (q, r))).2 < 2 ^ 10
    rw [redStep]
    by_cases hb : r.testBit (j + 10) <;> simp only [hb, if_true, if_false]
    · have hglt : g <<< (j + 10 - 10) < 2 ^ (j + 10 + 1) := by
        rw [Nat.add_sub_cancel, Nat.shiftLeft_eq]
        calc g * 2 ^ j < 2 ^ 11 * 2 ^ j := by
              exact (Nat.mul_lt_mul_right (Nat.two_pow_pos j)).mpr hg2
          _ = 2 ^ (j + 10 + 1) := by rw [← pow_add]; ring_nf
      have hx : r ^^^ g <<< (j + 10 - 10) < 2 ^ (j + 10 + 1) :=
        Nat.xor_lt_two_pow (by simpa using hr) hglt
      have hbit : (r ^^^ g <<< (j + 10 - 10)).testBit (j + 10) = false := by
        rw [Nat.testBit_xor, hb, Nat.add_sub_cancel, Nat.testBit_shiftLeft]
        have h10 : j + 10 - j = 10 := by omega
        have : g.testBit 10 = true := testBit_true_of_between g 10 hg1 hg2
        simp [h10, this]
      exact ih _ _ (lt_pow_of_testBit_false _ _ hx hbit)
    · exact ih q r (lt_pow_of_testBit_false _ _ (by simpa using hr)
        (by simpa using hb))

theorem redAux_congruence (g : Nat) : ∀ j q r : Nat,
    cmul (redAux g j (q, r)).1 g ^^^ (redAux g j (q, r)).2 = cmul q g ^^^ r := by
  intro j
  induction j with
  | zero => intro q r; rfl
  | succ j ih =>
    intro q r
    show cmul (redAux g j (redStep g (j + 10) (q, r))).1 g ^^^
        (redAux g j (redStep g (j + 10) (q, r))).2 = cmul q g ^^^ r
    rw [redStep]
    by_cases hb : r.testBit (j + 10) <;> simp only [hb, if_true, if_false]
    · rw [ih, cmul_xor_left, Nat.one_shiftLeft, cmul_two_pow]
      generalize cmul q g = cq
      generalize g <<< (j + 10 - 10) = m
      rw [Nat.xor_comm r m, ← Nat.xor_assoc, Nat.xor_assoc cq m m,
        Nat.xor_self, Nat.xor_zero]
    · exact ih q r

theorem polyDivMod_spec (g : Nat) (hg1 : 2 ^ 10 ≤ g) (hg2 : g < 2 ^ 11)
    (n : Nat) (hn : n < 2 ^ 31) :
    cmul (polyDivMod g n).1 g ^^^ (polyDivMod g n).2 = n ∧
      (polyDivMod g n).2 < 2 ^ 10 := by
  constructor
  · rw [polyDivMod, redAux_congruence, cmul_zero, Nat.zero_xor]
  · exact redAux_snd_lt g hg1 hg2 21 0 n (by simpa using hn)

theorem polyDivMod_uniq (g : Nat) (hg1 : 2 ^ 10 ≤ g) (hg2 : g < 2 ^ 11)
    (q1 r1 q2 r2 : Nat) (h : cmul q1 g ^^^ r1 = cmul q2 g ^^^ r2)
    (h1 : r1 < 2 ^ 10) (h2 : r2 < 2 ^ 10) : q1 = q2 ∧ r1 = r2 := by
  have hq : q1 = q2 := by
    by_contra hne
    have hxne : q1 ^^^ q2 ≠ 0 := fun h0 => hne (Nat.xor_eq_zero.mp h0)
    have hxor : cmul (q1 ^^^ q2) g = r2 ^^^ r1 := by
      rw [cmul_xor_left]
      have step := congrArg (fun z => z ^^^ (cmul q2 g ^^^ r1)) h
      simp only at step
      rwa [xor_cancel_right2, xor_cancel_left2] at step
    have hge := cmul_ge g hg1 hg2 (q1 ^^^ q2) hxne
    rw [hxor] at hge
    have hlt : r2 ^^^ r1 < 2 ^ 10 := Nat.xor_lt_two_pow h2 h1
    omega
  subst hq
  exact ⟨rfl, xor_left_cancel (cmul q1 g) r1 r2 h⟩

/-! ## Hamming weight facts and the error-pattern enumeration -/

theorem wtAux_zero (f : Nat) : wtAux f 0 = 0 := by
  cases f <;> simp [wtAux]

theorem wtAux_fuel (f1 : Nat) : ∀ f2 n : Nat, n ≤ f1 → n ≤ f2 →
    wtAux f1 n = wtAux f2 n := by
  induction f1 with
  | zero =>
    intro f2 n h1 _
    have h0 : n = 0 := by omega
    rw [h0, wtAux_zero, wtAux_zero]
  | succ f1 ih =>
    intro f2 n h1 h2
    by_cases h0 : n = 0
    · rw [h0, wtAux_zero, wtAux_zero]
    cases f2 with
    | zero => omega
    | succ f2 =>
      show (if n = 0 then 0 else n % 2 + wtAux f1 (n / 2)) =
        (if n = 0 then 0 else n % 2 + wtAux f2 (n / 2))
      rw [if_neg h0, if_neg h0]
      have hlt : n / 2 < n := Nat.div_lt_self (Nat.pos_of_ne_zero h0) one_lt_two
      congr 1
      exact ih f2 (n / 2) (by omega) (by omega)

theorem wt_ne (n : Nat) (h : n ≠ 0) : wt n = n % 2 + wt (n / 2) := by
  show wtAux n n = n % 2 + wtAux (n / 2) (n / 2)
  cases n with
  | zero => exact absurd rfl h
  | succ m =>
    show (if m + 1 = 0 then 0 else (m + 1) % 2 + wtAux m ((m + 1) / 2)) =
      (m + 1) % 2 + wtAux ((m + 1) / 2) ((m + 1) / 2)
    rw [if_neg (Nat.succ_ne_zero m)]
    congr 1
    exact wtAux_fuel m _ _ (by omega) (le_refl _)

theorem wt_eq_zero (n : Nat) : wt n = 0 → n = 0 := by
  induction n using Nat.strong_induction_on with
  | _ n ih =>
    intro h
    by_cases h0 : n = 0
    · exact h0
    rw [wt_ne n h0] at h
    have h2 : wt (n / 2) = 0 := by omega
    have h3 : n / 2 = 0 :=
      ih (n / 2) (Nat.div_lt_self (Nat.pos_of_ne_zero h0) one_lt_two) h2
    have hdm := Nat.div_add_mod n 2
    omega

theorem wt_eq_one (n : Nat) : wt n = 1 → ∃ i, n = 2 ^ i := by
  induction n using Nat.strong_induction_on with
  | _ n ih =>
    intro h
    by_cases h0 : n = 0
    · subst h0
      exact absurd h (by decide)
    rw [wt_ne n h0] at h
    have hdm := Nat.div_add_mod n 2
    rcases Nat.mod_two_eq_zero_or_one n with hp | hp
    · have h1 : wt (n / 2) = 1 := by omega
      obtain ⟨i, hi⟩ :=
        ih (n / 2) (Nat.div_lt_self (Nat.pos_of_ne_zero h0) one_lt_two) h1
      exact ⟨i + 1, by rw [pow_succ]; omega⟩
    · have h1 : wt (n / 2) = 0 := by omega
      have h2 := wt_eq_zero (n / 2) h1
      exact ⟨0, by rw [pow_zero]; omega⟩

theorem even_xor_one (x : Nat) (h : x % 2 = 0) : x ^^^ 1 = x + 1 := by
  have hdiv : (x ^^^ 1) / 2 = x / 2 := by
    rw [xor_div_two]
    norm_num
  have hmod : (x ^^^ 1) % 2 = 1 := by
    rw [xor_mod_two, h]
    rfl
  have h1 := Nat.div_add_mod (x ^^^ 1) 2
  have h2 := Nat.div_add_mod x 2
  omega

theorem two_pow_xor_two_pow (i j : Nat) (h : j < i) :
    2 ^ i ^^^ 2 ^ j = 2 ^ i + 2 ^ j := by
  have hi : (2 : Nat) ^ i = 2 ^ (i - j) <<< j := by
    rw [Nat.shiftLeft_eq, ← pow_add]
    congr 1
    omega
  have hj : (2 : Nat) ^ j = 1 <<< j := (Nat.one_shiftLeft j).symm
  have hev : 2 ^ (i - j) % 2 = 0 := by
    have hsplit : i - j = (i - j - 1) + 1 := by omega
    rw [hsplit, pow_succ]
    exact Nat.mul_mod_left _ 2
  have hijj : i - j + j = i := by omega
  conv_lhs => rw [hi, hj, ← xor_shiftLeft, even_xor_one _ hev,
    Nat.shiftLeft_eq, add_mul, one_mul, ← pow_add, hijj]

theorem wt_eq_two (n : Nat) : wt n = 2 → ∃ i j, j < i ∧ n = 2 ^ i ^^^ 2 ^ j := by
  induction n using Nat.strong_induction_on with
  | _ n ih =>
    intro h
    by_cases h0 : n = 0
    · subst h0
      exact absurd h (by decide)
    rw [wt_ne n h0] at h
    have hdm := Nat.div_add_mod n 2
    rcases Nat.mod_two_eq_zero_or_one n with hp | hp
    · have h1 : wt (n / 2) = 2 := by omega
      obtain ⟨i, j, hji, hij⟩ :=
        ih (n / 2) (Nat.div_lt_self (Nat.pos_of_ne_zero h0) one_lt_two) h1
      refine ⟨i + 1, j + 1, by omega, ?_⟩
      have hx : (2 : Nat) ^ (i + 1) ^^^ 2 ^ (j + 1) = (2 ^ i ^^^ 2 ^ j) * 2 := by
        have hsh := xor_shiftLeft (2 ^ i) (2 ^ j) 1
        rw [Nat.shiftLeft_eq, Nat.shiftLeft_eq, Nat.shiftLeft_eq, pow_one] at hsh
        rw [pow_succ, pow_succ]
        exact hsh.symm
      rw [hx]
      omega
    · have h1 : wt (n / 2) = 1 := by omega
      obtain ⟨i, hi⟩ := wt_eq_one (n / 2) h1
      refine ⟨i + 1, 0, Nat.succ_pos i, ?_⟩
      rw [two_pow_xor_two_pow (i + 1) 0 (Nat.succ_pos i), pow_zero, pow_succ]
      omega

theorem mem_errList (e : Nat) (hlt : e < 2 ^ 31) (hwt : wt e ≤ 2) :
    e ∈ errList := by
  have h3 : wt e = 0 ∨ wt e = 1 ∨ wt e = 2 := by omega
  rcases h3 with h | h | h
  · rw [wt_eq_zero e h]
    exact List.mem_cons_self _ _
  · obtain ⟨i, hi⟩ := wt_eq_one e h
    have hi31 : i < 31 := by
      rw [hi] at hlt
      exact (Nat.pow_lt_pow_iff_right one_lt_two).mp hlt
    rw [errList]
    refine List.mem_cons_of_mem _ (List.mem_append_left _ ?_)
    simp only [List.mem_map, List.mem_range]
    exact ⟨i, hi31, by rw [Nat.one_shiftLeft, hi]⟩
  · obtain ⟨i, j, hji, hij⟩ := wt_eq_two e h
    have hi31 : i < 31 := by
      have hge : 2 ^ i ≤ e := by
        rw [hij, two_pow_xor_two_pow i j hji]
        exact Nat.le_add_right _ _
      have hpl : (2 : Nat) ^ i < 2 ^ 31 := lt_of_le_of_lt hge hlt
      exact (Nat.pow_lt_pow_iff_right one_lt_two).mp hpl
    rw [errList]
    refine List.mem_cons_of_mem _ (List.mem_append_right _ ?_)
    simp only [List.mem_flatMap, List.mem_map, List.mem_range]
    exact ⟨i, hi31, j, hji, by rw [Nat.one_shiftLeft, Nat.one_shiftLeft, hij]⟩

set_option maxRecDepth 10000 in
theorem errList_syndromes_table : errList.map flexSyndrome = flexSyndromeTable := by
  decide

set_option maxRecDepth 10000 in
set_option maxHeartbeats 1000000 in
theorem errList_syndromes_nodup : (errList.map flexSyndrome).Nodup := by
  rw [errList_syndromes_table]
  decide

/-! ## Impossibility of the claimed BCH(31,23) contract, and correctness
of the BCH(31,21) corrector -/

theorem bitErrors_flipOn (w : Fin 31 → Bool) (s : Finset (Fin 31)) :
    bitErrors w (flipOn w s) = s.card := by
  simp only [bitErrors]
  congr 1
  ext i
  simp only [Finset.mem_filter, Finset.mem_univ, true_and, flipOn]
  by_cases hi : i ∈ s
  · simp only [hi, if_true, iff_true]
    cases w i <;> simp
  · simp only [hi, if_false, iff_false]
    simp

theorem flipOn_inj (w : Fin 31 → Bool) (s t : Finset (Fin 31))
    (h : flipOn w s = flipOn w t) : s = t := by
  ext i
  have hi := congrFun h i
  simp only [flipOn] at hi
  by_cases h1 : i ∈ s
  · by_cases h2 : i ∈ t
    · simp [h1, h2]
    · rw [if_pos h1, if_neg h2] at hi
      cases hw : w i <;> rw [hw] at hi <;> simp at hi
  · by_cases h2 : i ∈ t
    · rw [if_neg h1, if_pos h2] at hi
      cases hw : w i <;> rw [hw] at hi <;> simp at hi
    · simp [h1, h2]

/-- C1 (counterexample): no decoder satisfying the spec's BCH(31,23)
contract can exist at all. Sphere packing: the `2 ^ 23 * 497` pairs of a
data word and an error pattern of weight at most two would inject into the
`2 ^ 31` received words, but `2 ^ 23 * 497 > 2 ^ 31`. -/
theorem bch3123_contract_impossible : IsEmpty BCH3123 := by
  constructor
  intro C
  have hdec : ∀ (dd : Fin 23 → Bool) (s : {s : Finset (Fin 31) // s.card ≤ 2}),
      C.decode (flipOn (C.encode dd) s.val) = some dd := by
    intro dd s
    apply C.decode_correct
    rw [bitErrors_flipOn]
    exact s.2
  have hinj : Function.Injective
      (fun p : (Fin 23 → Bool) × {s : Finset (Fin 31) // s.card ≤ 2} =>
        flipOn (C.encode p.1) p.2.val) := by
    rintro ⟨d1, s1⟩ ⟨d2, s2⟩ h
    simp only at h
    have hd : d1 = d2 := by
      have h1 := hdec d1 s1
      rw [h, hdec d2 s2] at h1
      exact (Option.some_inj.mp h1).symm
    subst hd
    have hs := flipOn_inj (C.encode d1) s1.val s2.val h
    exact Prod.ext rfl (Subtype.ext hs)
  have hcard := Fintype.card_le_of_injective _ hinj
  rw [Fintype.card_prod, Fintype.card_fun, Fintype.card_fun, Fintype.card_bool,
    Fintype.card_fin, Fintype.card_fin] at hcard
  have hsub : Fintype.card {s : Finset (Fin 31) // s.card ≤ 2} = 497 := by
    rw [Fintype.card_subtype]
    have huniv : (Finset.univ : Finset (Finset (Fin 31))) =
        (Finset.univ : Finset (Fin 31)).powerset := Finset.powerset_univ.symm
    rw [huniv]
    have hiff : ∀ s ∈ (Finset.univ : Finset (Fin 31)).powerset,
        s.card ≤ 2 ↔ (s.card = 0 ∨ s.card = 1) ∨ s.card = 2 := by
      intro s _
      omega
    rw [Finset.filter_congr hiff, Finset.filter_or, Finset.filter_or,
      ← Finset.powersetCard_eq_filter, ← Finset.powersetCard_eq_filter,
      ← Finset.powersetCard_eq_filter]
    have hd01 : Disjoint (Finset.powersetCard 0 (Finset.univ : Finset (Fin 31)))
        (Finset.powersetCard 1 Finset.univ) := by
      rw [Finset.disjoint_left]
      intro s hs0 hs1
      rw [Finset.mem_powersetCard] at hs0 hs1
      have e0 := hs0.2
      have e1 := hs1.2
      omega
    have hd012 : Disjoint (Finset.powersetCard 0 (Finset.univ : Finset (Fin 31)) ∪
        Finset.powersetCard 1 Finset.univ) (Finset.powersetCard 2 Finset.univ) := by
      rw [Finset.disjoint_left]
      intro s hs01 hs2
      rw [Finset.mem_union, Finset.mem_powersetCard, Finset.mem_powersetCard] at hs01
      rw [Finset.mem_powersetCard] at hs2
      have e2 := hs2.2
      rcases hs01 with h01 | h01
      · have e0 := h01.2
        omega
      · have e1 := h01.2
        omega
    rw [Finset.card_union_of_disjoint hd012, Finset.card_union_of_disjoint hd01,
      Finset.card_powersetCard, Finset.card_powersetCard,
      Finset.card_powersetCard, Finset.card_univ, Fintype.card_fin]
    decide
  rw [hsub] at hcard
  norm_num at hcard

/-- C1 (amended): for the two-error-correcting BCH(31,21) code actually
usable on 31-bit FLEX block words, decoding any received word that differs
from a transmitted codeword in at most two bit positions recovers the
original 21 data bits exactly, with a success indication. -/
theorem bch3121_decode_eq_some (r e0 : Nat)
    (h : errList.find? (fun x => flexSyndrome x == flexSyndrome r) = some e0) :
    bch3121_decode r = some ((polyDivMod g3121 (r ^^^ e0)).1) := by
  unfold bch3121_decode
  rw [h]

theorem bch3121_decode_correct (d e : Nat) (hd : d < 2 ^ 21)
    (he31 : e < 2 ^ 31) (hwt : wt e ≤ 2) :
    bch3121_decode (bch3121_encode d ^^^ e) = some d := by
  show bch3121_decode (cmul d g3121 ^^^ e) = some d
  have hg1 : 2 ^ 10 ≤ g3121 := by norm_num [g3121]
  have hg2 : g3121 < 2 ^ 11 := by norm_num [g3121]
  have hc : cmul d g3121 < 2 ^ 31 := by
    simpa using cmul_lt 20 d g3121 10 (by simpa using hd) hg2
  have hr : cmul d g3121 ^^^ e < 2 ^ 31 := Nat.xor_lt_two_pow hc he31
  obtain ⟨hsr, hlr⟩ := polyDivMod_spec g3121 hg1 hg2 _ hr
  obtain ⟨hse, hle⟩ := polyDivMod_spec g3121 hg1 hg2 e he31
  have hkey : cmul (polyDivMod g3121 (cmul d g3121 ^^^ e)).1 g3121 ^^^
      (polyDivMod g3121 (cmul d g3121 ^^^ e)).2 =
      cmul (d ^^^ (polyDivMod g3121 e).1) g3121 ^^^ (polyDivMod g3121 e).2 := by
    rw [hsr, cmul_xor_left, Nat.xor_assoc, hse]
  obtain ⟨hq, hs⟩ := polyDivMod_uniq g3121 hg1 hg2 _ _ _ _ hkey hlr hle
  have hsyn : flexSyndrome (cmul d g3121 ^^^ e) = flexSyndrome e := hs
  have hpe : (fun x => flexSyndrome x == flexSyndrome (cmul d g3121 ^^^ e)) e
      = true := by
    rw [hsyn]
    simp
  have hmem : e ∈ errList := mem_errList e he31 hwt
  obtain ⟨e', hfind⟩ : ∃ e', errList.find?
      (fun x => flexSyndrome x == flexSyndrome (cmul d g3121 ^^^ e)) = some e' :=
    Option.isSome_iff_exists.mp (List.find?_isSome.mpr ⟨e, hmem, hpe⟩)
  have hmem' := List.mem_of_find?_eq_some hfind
  have hpe' := List.find?_some hfind
  have hsyn' : flexSyndrome e' = flexSyndrome e := by
    have hx : flexSyndrome e' = flexSyndrome (cmul d g3121 ^^^ e) := by
      simpa [beq_iff_eq] using hpe'
    rw [hx, hsyn]
  have hee : e' = e :=
    List.inj_on_of_nodup_map errList_syndromes_nodup hmem' hmem hsyn'
  rw [hee] at hfind
  rw [bch3121_decode_eq_some _ _ hfind]
  have hre : (cmul d g3121 ^^^ e) ^^^ e = cmul d g3121 := by
    rw [Nat.xor_assoc, Nat.xor_self, Nat.xor_zero]
  rw [hre]
  obtain ⟨hsc, hlc⟩ := polyDivMod_spec g3121 hg1 hg2 _ hc
  have hkey2 : cmul (polyDivMod g3121 (cmul d g3121)).1 g3121 ^^^
      (polyDivMod g3121 (cmul d g3121)).2 = cmul d g3121 ^^^ 0 := by
    rw [hsc, Nat.xor_zero]
  obtain ⟨hq2, _⟩ := polyDivMod_uniq g3121 hg1 hg2 _ _ _ _ hkey2 hlc
    (Nat.two_pow_pos 10)
  rw [hq2]

theorem bch3121_decode_correct_witness :
    bch3121_decode (bch3121_encode 1234567 ^^^ ((1 <<< 30) ^^^ (1 <<< 0)))
      = some 1234567 :=
  bch3121_decode_correct 1234567 ((1 <<< 30) ^^^ (1 <<< 0)) (by decide)
    (by decide) (by decide)

/-! ## Theorems about the FLEX decoder model -/

theorem pager_flex_on_pcm_append (xs : List Int) : ∀ (f : PagerFlex)
    (ys : List Int), pager_flex_on_pcm f (xs ++ ys) =
      ((pager_flex_on_pcm (pager_flex_on_pcm f xs).1 ys).1,
        (pager_flex_on_pcm f xs).2 ++
          (pager_flex_on_pcm (pager_flex_on_pcm f xs).1 ys).2) := by
  induction xs with
  | nil => intro f ys; simp [pager_flex_on_pcm]
  | cons x xs ih =>
    intro f ys
    simp only [List.cons_append, pager_flex_on_pcm, List.append_eq]
    rw [ih]
    simp [List.append_assoc]

/-- C2: pushing N samples in one `pager_flex_on_pcm` call and pushing the
same N samples split across any sequence of consecutive chunks produce the
same final decoder state and the identical sequence of callback
invocations, byte for byte. -/
theorem pager_flex_on_pcm_chunked (chunks : List (List Int)) :
    ∀ f : PagerFlex, pager_flex_on_pcm_chunks f chunks =
      pager_flex_on_pcm f chunks.flatten := by
  induction chunks with
  | nil => intro f; rfl
  | cons c cs ih =>
    intro f
    rw [List.flatten_cons, pager_flex_on_pcm_append]
    simp only [pager_flex_on_pcm_chunks]
    rw [ih]

/-- C4: a Sync1 attempt in the INV_A sub-state whose accumulated 32 bits
fail the inverted-A validation (Hamming distance to the complement of the
matched A word above tolerance) returns exactly to SEARCH_BS1, with the
sample counter, bit counter and the a, b, inv_a and fiw accumulators
restored to their initial values. -/
theorem pager_flex_sync_inv_a_reset (s : PagerFlexSync) (bit : Nat)
    (hst : s.state = PagerFlexSyncState.INV_A)
    (hbc : s.bit_counter = 31)
    (hfail : flexSyncTolerance <
      wt ((((s.inv_a <<< 1) ||| (bit &&& 1)) &&& 0xFFFFFFFF) ^^^
        (s.a ^^^ 0xFFFFFFFF))) :
    pager_flex_sync_on_bit s bit = pager_flex_sync_reset s ∧
      (pager_flex_sync_on_bit s bit).state = PagerFlexSyncState.SEARCH_BS1 ∧
      (pager_flex_sync_on_bit s bit).sample_counter = 0 ∧
      (pager_flex_sync_on_bit s bit).bit_counter = 0 ∧
      (pager_flex_sync_on_bit s bit).a = 0 ∧
      (pager_flex_sync_on_bit s bit).b = 0 ∧
      (pager_flex_sync_on_bit s bit).inv_a = 0 ∧
      (pager_flex_sync_on_bit s bit).fiw = 0 := by
  have hcond : ¬ (wt ((((s.inv_a <<< 1) ||| (bit &&& 1)) &&& 0xFFFFFFFF) ^^^
      (s.a ^^^ 0xFFFFFFFF)) ≤ flexSyncTolerance) := by omega
  have hmain : pager_flex_sync_on_bit s bit = pager_flex_sync_reset s := by
    obtain ⟨sw, st, sc, bc, av, bv, ia, fw, cod⟩ := s
    simp only at hst hbc hcond
    subst hst
    subst hbc
    rw [Nat.and_one_is_mod] at hcond
    simp [pager_flex_sync_on_bit, pager_flex_sync_reset, hcond]
  refine ⟨hmain, ?_, ?_, ?_, ?_, ?_, ?_, ?_⟩ <;>
    rw [hmain] <;> simp [pager_flex_sync_reset]

theorem pager_flex_sync_inv_a_reset_witness :
    pager_flex_sync_on_bit ⟨[], PagerFlexSyncState.INV_A, 5, 31, 0, 0, 0, 0, none⟩ 0 =
      pager_flex_sync_reset ⟨[], PagerFlexSyncState.INV_A, 5, 31, 0, 0, 0, 0, none⟩ ∧
    (pager_flex_sync_on_bit ⟨[], PagerFlexSyncState.INV_A, 5, 31, 0, 0, 0, 0, none⟩ 0).state =
      PagerFlexSyncState.SEARCH_BS1 ∧
    (pager_flex_sync_on_bit ⟨[], PagerFlexSyncState.INV_A, 5, 31, 0, 0, 0, 0, none⟩ 0).sample_counter = 0 ∧
    (pager_flex_sync_on_bit ⟨[], PagerFlexSyncState.INV_A, 5, 31, 0, 0, 0, 0, none⟩ 0).bit_counter = 0 ∧
    (pager_flex_sync_on_bit ⟨[], PagerFlexSyncState.INV_A, 5, 31, 0, 0, 0, 0, none⟩ 0).a = 0 ∧
    (pager_flex_sync_on_bit ⟨[], PagerFlexSyncState.INV_A, 5, 31, 0, 0, 0, 0, none⟩ 0).b = 0 ∧
    (pager_flex_sync_on_bit ⟨[], PagerFlexSyncState.INV_A, 5, 31, 0, 0, 0, 0, none⟩ 0).inv_a = 0 ∧
    (pager_flex_sync_on_bit ⟨[], PagerFlexSyncState.INV_A, 5, 31, 0, 0, 0, 0, none⟩ 0).fiw = 0 :=
  pager_flex_sync_inv_a_reset ⟨[], PagerFlexSyncState.INV_A, 5, 31, 0, 0, 0, 0, none⟩
    0 rfl rfl (by decide)

/-- C5: the slicing thresholds `slice_range_high`/`slice_range_low` are
modified only at the Sync2-to-Block transition, where they receive the
averaged envelope sums (`range_avg_sum / range_avg_count` for each side);
every other step of sample processing leaves both fields unchanged. -/
theorem pager_flex_slice_update_only_sync2 (f : PagerFlex) (x : Int) :
    ((pager_flex_step f x).1.slice_range_high = f.slice_range_high ∧
      (pager_flex_step f x).1.slice_range_low = f.slice_range_low) ∨
    (f.state = PagerFlexState.SYNC_2 ∧
      (pager_flex_sync_2_on_sample f.sync_2 x).state =
        PagerFlexSync2State.SYNCED ∧
      (pager_flex_step f x).1.state = PagerFlexState.BLOCK ∧
      (pager_flex_step f x).1.slice_range_high =
        (pager_flex_sync_2_on_sample f.sync_2 x).range_avg_sum_high /
          ((pager_flex_sync_2_on_sample f.sync_2 x).range_avg_count_high : Int) ∧
      (pager_flex_step f x).1.slice_range_low =
        (pager_flex_sync_2_on_sample f.sync_2 x).range_avg_sum_low /
          ((pager_flex_sync_2_on_sample f.sync_2 x).range_avg_count_low : Int)) := by
  obtain ⟨h, l, sy, s2, br, mo, scnt, st, sk, skc, ss, fr, bl⟩ := f
  by_cases hskip : scnt + 1 < ss
  · left
    constructor <;> simp [pager_flex_step, hskip]
  cases st with
  | SYNC_1 =>
    left
    by_cases hs : (pager_flex_sync_on_bit sy (slice2 x)).state =
        PagerFlexSyncState.SYNCED <;>
      constructor <;> simp [pager_flex_step, hskip, hs]
  | SYNC_2 =>
    by_cases hs : (pager_flex_sync_2_on_sample s2 x).state =
        PagerFlexSync2State.SYNCED
    · right
      refine ⟨rfl, hs, ?_, ?_, ?_⟩ <;> simp [pager_flex_step, hskip, hs]
    · left
      constructor <;> simp [pager_flex_step, hskip, hs]
  | BLOCK =>
    left
    constructor <;> simp only [pager_flex_step, hskip, if_false] <;>
      split <;> rfl

theorem ring_push_length (l : List Nat) (w : Nat) (h : l.length ≤ 10) :
    (ring_push l w).length ≤ 10 := by
  by_cases hl : l.length < 10
  · rw [ring_push, if_pos hl]
    simp
    omega
  · rw [ring_push, if_neg hl]
    simp [List.length_tail]
    omega

theorem pager_flex_sync_on_bit_words (s : PagerFlexSync) (bit : Nat) :
    (pager_flex_sync_on_bit s bit).sync_words = s.sync_words ∨
    ∃ w, (pager_flex_sync_on_bit s bit).sync_words =
      ring_push s.sync_words w := by
  obtain ⟨sw, st, sc, bc, av, bv, ia, fw, cod⟩ := s
  cases st with
  | SEARCH_BS1 =>
    dsimp only [pager_flex_sync_on_bit]
    split
    · right
      exact ⟨_, rfl⟩
    · left
      rfl
  | BS1 => left; rfl
  | A =>
    dsimp only [pager_flex_sync_on_bit]
    split
    · split
      · left; rfl
      · left; rfl
    · left; rfl
  | B =>
    dsimp only [pager_flex_sync_on_bit]
    split
    · left; rfl
    · left; rfl
  | INV_A =>
    dsimp only [pager_flex_sync_on_bit]
    split
    · split
      · left; rfl
      · left; rfl
    · left; rfl
  | FIW =>
    dsimp only [pager_flex_sync_on_bit]
    split
    · split
      · left; rfl
      · left; rfl
    · left; rfl
  | SYNCED => left; rfl

theorem pager_flex_step_sync_words (f : PagerFlex) (x : Int) :
    (pager_flex_step f x).1.sync.sync_words = f.sync.sync_words ∨
    (∃ w, (pager_flex_step f x).1.sync.sync_words =
      ring_push f.sync.sync_words w) ∨
    (pager_flex_step f x).1.sync.sync_words = [] := by
  obtain ⟨h, l, sy, s2, br, mo, scnt, st, sk, skc, ss, fr, bl⟩ := f
  by_cases hskip : scnt + 1 < ss
  · left
    simp [pager_flex_step, hskip]
  cases st with
  | SYNC_1 =>
    rcases pager_flex_sync_on_bit_words sy (slice2 x) with hw | ⟨w, hw⟩
    · left
      by_cases hs : (pager_flex_sync_on_bit sy (slice2 x)).state =
          PagerFlexSyncState.SYNCED <;>
        simp [pager_flex_step, hskip, hs, hw]
    · right; left
      refine ⟨w, ?_⟩
      by_cases hs : (pager_flex_sync_on_bit sy (slice2 x)).state =
          PagerFlexSyncState.SYNCED <;>
        simp [pager_flex_step, hskip, hs, hw]
  | SYNC_2 =>
    left
    by_cases hs : (pager_flex_sync_2_on_sample s2 x).state =
        PagerFlexSync2State.SYNCED <;>
      simp [pager_flex_step, hskip, hs]
  | BLOCK =>
    simp only [pager_flex_step, hskip, if_false]
    split
    · right; right
      rfl
    · left
      rfl

/-- C6: in every reachable decoder state the Sync1 sync-word history holds
at most ten entries, and appending to a full ten-entry history discards
the oldest entry (ring overflow) while keeping the length at ten. -/
theorem pager_flex_sync_words_invariant :
    (∀ f : PagerFlex, PagerFlexReachable f →
      f.sync.sync_words.length ≤ 10) ∧
    (∀ (l : List Nat) (w : Nat), l.length = 10 →
      ring_push l w = l.tail ++ [w] ∧ (ring_push l w).length = 10) := by
  constructor
  · intro f hf
    induction hf with
    | new freq_hz => simp [pager_flex_new, initFlexSync]
    | step f x hf ih =>
      rcases pager_flex_step_sync_words f x with hw | ⟨w, hw⟩ | hw <;> rw [hw]
      · exact ih
      · exact ring_push_length _ _ ih
      · simp
  · intro l w hl
    constructor
    · rw [ring_push, if_neg (by omega)]
    · rw [ring_push, if_neg (by omega)]
      simp [List.length_tail]
      omega

theorem pager_flex_sync_words_invariant_witness :
    (pager_flex_new 929612500).sync.sync_words.length ≤ 10 ∧
      ring_push [0, 1, 2, 3, 4, 5, 6, 7, 8, 9] 42 =
        [1, 2, 3, 4, 5, 6, 7, 8, 9, 42] :=
  ⟨pager_flex_sync_words_invariant.1 (pager_flex_new 929612500)
      (PagerFlexReachable.new 929612500),
    ((pager_flex_sync_words_invariant.2 [0, 1, 2, 3, 4, 5, 6, 7, 8, 9] 42
      (by decide)).1).trans (by decide)⟩

theorem pager_flex_deliver_tone (baud : Nat) (phase : Char) (cap : Nat)
    (ty : PagerFlexMsgType) (body raw : List Char)
    (ht : (pager_flex_deliver baud phase cap ty body raw).msg_type =
      PagerFlexMsgType.TONE) :
    (pager_flex_deliver baud phase cap ty body raw).message_bytes = none ∧
      (pager_flex_deliver baud phase cap ty body raw).message_len = 0 := by
  cases ty <;> simp [pager_flex_deliver] at ht ⊢

theorem pager_flex_word_message_tone (baud w : Nat)
    (ht : (pager_flex_word_message baud w).msg_type = PagerFlexMsgType.TONE) :
    (pager_flex_word_message baud w).message_bytes = none ∧
      (pager_flex_word_message baud w).message_len = 0 :=
  pager_flex_deliver_tone _ _ _ _ _ _ ht

/-- C7: every message the decoder completes with message type TONE is
delivered to the registered callback with a NULL `message_bytes` and
`message_len` equal to zero. -/
theorem pager_flex_tone_message_null (f : PagerFlex) (x : Int)
    (m : PagerFlexMessage) (hm : m ∈ (pager_flex_step f x).2)
    (ht : m.msg_type = PagerFlexMsgType.TONE) :
    m.message_bytes = none ∧ m.message_len = 0 := by
  obtain ⟨h, l, sy, s2, br, mo, scnt, st, sk, skc, ss, fr, bl⟩ := f
  by_cases hskip : scnt + 1 < ss
  · simp [pager_flex_step, hskip] at hm
  cases st with
  | SYNC_1 =>
    by_cases hs : (pager_flex_sync_on_bit sy (slice2 x)).state =
        PagerFlexSyncState.SYNCED <;>
      simp [pager_flex_step, hskip, hs] at hm
  | SYNC_2 =>
    by_cases hs : (pager_flex_sync_2_on_sample s2 x).state =
        PagerFlexSync2State.SYNCED <;>
      simp [pager_flex_step, hskip, hs] at hm
  | BLOCK =>
    simp only [pager_flex_step, hskip, if_false] at hm
    split at hm
    · simp only at hm
      obtain ⟨w, _, hmw⟩ := List.mem_map.mp hm
      subst hmw
      exact pager_flex_word_message_tone _ _ ht
    · simp at hm

set_option maxRecDepth 100000 in
set_option maxHeartbeats 1000000 in
theorem pager_flex_tone_message_null_witness :
    (pager_flex_word_message 1600 3).message_bytes = none ∧
      (pager_flex_word_message 1600 3).message_len = 0 :=
  pager_flex_tone_message_null
    ⟨0, 0, initFlexSync, initFlexSync2, 1600, PagerFlexModulation.FSK2, 0,
      PagerFlexState.BLOCK, 0, 0, 1, 0, ⟨1245, 30, [0, 0, 0, 0, 0, 0, 0]⟩⟩
    1 (pager_flex_word_message 1600 3) (by decide) (by decide)
